import Mathlib

/-!
Verification of the gentlify adaptive client-side throttle core against its
specification.  The Python source is shallowly embedded: timestamps and
float-valued quantities are modelled as rationals (the operations used by the
source — addition, halving, doubling, min/max, comparison — are exact), Python
ints are modelled as `Int` (or `Nat` where the source guarantees
non-negativity), and the mutable objects become explicit state records with
pure transition functions.
-/

/-! ## SlidingWindow (`gentlify/_window.py`)

Entries are `(timestamp, value)` pairs appended at the current clock time.
`_prune` pops from the left while the head's timestamp is strictly below
`now - window_seconds`; `total` and `count` prune and then read. -/

def pruneW (windowSeconds now : ℚ) (entries : List (ℚ × ℚ)) : List (ℚ × ℚ) :=
  entries.dropWhile (fun e => e.1 < now - windowSeconds)

def recordW (now value : ℚ) (entries : List (ℚ × ℚ)) : List (ℚ × ℚ) :=
  entries ++ [(now, value)]

def totalW (windowSeconds now : ℚ) (entries : List (ℚ × ℚ)) : ℚ :=
  ((pruneW windowSeconds now entries).map Prod.snd).sum

def countW (windowSeconds now : ℚ) (entries : List (ℚ × ℚ)) : ℕ :=
  (pruneW windowSeconds now entries).length

def clearW : List (ℚ × ℚ) := []

/-- An entry is live when its timestamp is at least `now - window_seconds`. -/
def liveEntry (windowSeconds now : ℚ) (e : ℚ × ℚ) : Bool :=
  now - windowSeconds ≤ e.1

/-! ## ConcurrencyController (`gentlify/_concurrency.py`)

The asyncio semaphore is modelled by its internal permit counter `semValue`.
`acquire` completes only when a permit is available (in the quiescent traces we
study no acquirer is left waiting); `release` increments the counter
unconditionally, exactly as `asyncio.Semaphore.release` does.
`_resize_semaphore` adds `diff` permits when growing and, when shrinking,
decrements the counter once per surplus permit but only while the counter is
positive — permits held by in-flight operations are skipped and no debt is
recorded. -/

structure CC where
  maxConcurrency : ℕ
  limit : ℕ
  semValue : ℕ
  inFlight : ℤ
  deriving Repr, DecidableEq

def initCC (maxConcurrency : ℕ) (initialConcurrency : Option ℕ) : CC :=
  let l := initialConcurrency.getD maxConcurrency
  { maxConcurrency := maxConcurrency, limit := l, semValue := l, inFlight := 0 }

def acquireCC (s : CC) : Option CC :=
  if 0 < s.semValue then
    some { s with semValue := s.semValue - 1, inFlight := s.inFlight + 1 }
  else none

def releaseCC (s : CC) : CC :=
  { s with inFlight := s.inFlight - 1, semValue := s.semValue + 1 }

/-- The shrink loop of `_resize_semaphore`: `k` iterations, each removing one
available permit when the counter is positive and doing nothing otherwise. -/
def drainPermits : ℕ → ℕ → ℕ
  | 0, v => v
  | k + 1, v => drainPermits k (if 0 < v then v - 1 else v)

def resizeSemaphore (newLimit : ℕ) (s : CC) : CC :=
  let oldLimit := s.limit
  let diff : ℤ := (newLimit : ℤ) - (oldLimit : ℤ)
  if 0 < diff then
    { s with limit := newLimit, semValue := s.semValue + diff.toNat }
  else if diff < 0 then
    { s with limit := newLimit, semValue := drainPermits (-diff).toNat s.semValue }
  else
    { s with limit := newLimit }

/-- `decelerate`: halve the limit, floored at 1.  Returns `(old, new)` with the
updated state. -/
def decelerateCC (s : CC) : (ℕ × ℕ) × CC :=
  let old := s.limit
  let new := max 1 (old / 2)
  ((old, new), resizeSemaphore new s)

/-- `reaccelerate`: increase the limit by one, capped at `safe_ceiling`. -/
def reaccelerateCC (safeCeiling : ℕ) (s : CC) : (ℕ × ℕ) × CC :=
  let old := s.limit
  let new := min (old + 1) safeCeiling
  ((old, new), resizeSemaphore new s)

def resizeCC (newLimit : ℕ) (s : CC) : CC :=
  resizeSemaphore newLimit s

inductive CCOp
  | acquire
  | release
  | decelerate
  | reaccelerate (safeCeiling : ℕ)
  | resize (newLimit : ℕ)
  deriving Repr, DecidableEq

def stepCC (s : CC) : CCOp → Option CC
  | .acquire => acquireCC s
  | .release => some (releaseCC s)
  | .decelerate => some (decelerateCC s).2
  | .reaccelerate c => some ((reaccelerateCC c s).2)
  | .resize n => some (resizeCC n s)

def runCC (ops : List CCOp) (s : CC) : Option CC :=
  ops.foldlM stepCC s

/-- The operation sequence of the C1 analysis: four acquisitions fill the
limit, a deceleration halves it while all work is in flight, then all four
operations release. -/
def c1Ops : List CCOp :=
  [.acquire, .acquire, .acquire, .acquire, .decelerate,
   .release, .release, .release, .release]

/-- Entries are appended in non-decreasing timestamp order (the window is fed
by a monotonic clock). -/
def tsSorted (E : List (ℚ × ℚ)) : Prop :=
  E.Pairwise (fun a b => a.1 ≤ b.1)

theorem pruneW_eq_filter (w now : ℚ) (E : List (ℚ × ℚ)) (h : tsSorted E) :
    pruneW w now E = E.filter (liveEntry w now) := by
  unfold pruneW liveEntry
  induction E with
  | nil => rfl
  | cons a t ih =>
    rcases List.pairwise_cons.mp h with ⟨ha, ht⟩
    simp only [List.dropWhile_cons, List.filter_cons]
    by_cases hc : a.1 < now - w
    · have h1 : ¬ (now - w ≤ a.1) := not_le.mpr hc
      simp [hc, h1, ih ht]
    · have h2 : now - w ≤ a.1 := not_lt.mp hc
      have h3 : List.filter (liveEntry w now) t = t :=
        List.filter_eq_self.mpr (fun b hb => by
          simp only [liveEntry, decide_eq_true_eq]
          exact le_trans h2 (ha b hb))
      rw [if_neg (by simp [hc]), if_pos (by simp [h2])]
      exact congrArg (List.cons a) h3.symm

/-- C8: for every `count`/`total` read at clock time `now` over timestamp-sorted
entries, an entry with timestamp `now - window_seconds` is live and survives
pruning, an entry with a strictly smaller timestamp is removed, `count` and
`total` reflect exactly the live entries, and `record` appends without
pruning (all prior entries, expired ones included, are retained). -/
theorem window_read_boundary (w now v : ℚ) (E : List (ℚ × ℚ)) (h : tsSorted E) :
    countW w now E = (E.filter (liveEntry w now)).length ∧
    totalW w now E = ((E.filter (liveEntry w now)).map Prod.snd).sum ∧
    (∀ e ∈ E, e.1 = now - w → e ∈ pruneW w now E) ∧
    (∀ e ∈ E, e.1 < now - w → e ∉ pruneW w now E) ∧
    recordW now v E = E ++ [(now, v)] := by
  have hp := pruneW_eq_filter w now E h
  refine ⟨?_, ?_, ?_, ?_, rfl⟩
  · unfold countW; rw [hp]
  · unfold totalW; rw [hp]
  · intro e he hts
    rw [hp, List.mem_filter]
    exact ⟨he, by simp [liveEntry, hts]⟩
  · intro e he hts
    rw [hp, List.mem_filter]
    rintro ⟨-, hlive⟩
    simp only [liveEntry, decide_eq_true_eq] at hlive
    exact absurd hts (not_lt.mpr hlive)

/-- Concrete check of `window_read_boundary`: window 10 read at time 20 over
entries stamped 5, 10 and 15 — the entry at the boundary timestamp 10 is live,
the entry at 5 is pruned. -/
theorem window_read_boundary_witness :
    tsSorted [((5 : ℚ), (1 : ℚ)), (10, 2), (15, 3)] ∧
    (countW 10 20 [((5 : ℚ), (1 : ℚ)), (10, 2), (15, 3)] =
      ([((5 : ℚ), (1 : ℚ)), (10, 2), (15, 3)].filter (liveEntry 10 20)).length ∧
    totalW 10 20 [((5 : ℚ), (1 : ℚ)), (10, 2), (15, 3)] =
      (([((5 : ℚ), (1 : ℚ)), (10, 2), (15, 3)].filter (liveEntry 10 20)).map Prod.snd).sum ∧
    (∀ e ∈ [((5 : ℚ), (1 : ℚ)), (10, 2), (15, 3)], e.1 = 20 - 10 →
      e ∈ pruneW 10 20 [((5 : ℚ), (1 : ℚ)), (10, 2), (15, 3)]) ∧
    (∀ e ∈ [((5 : ℚ), (1 : ℚ)), (10, 2), (15, 3)], e.1 < 20 - 10 →
      e ∉ pruneW 10 20 [((5 : ℚ), (1 : ℚ)), (10, 2), (15, 3)]) ∧
    recordW 20 7 [((5 : ℚ), (1 : ℚ)), (10, 2), (15, 3)] =
      [((5 : ℚ), (1 : ℚ)), (10, 2), (15, 3)] ++ [(20, 7)]) :=
  ⟨by unfold tsSorted; decide, window_read_boundary 10 20 7 _ (by unfold tsSorted; decide)⟩

/-- C1: a limit reduction performed while all permits are held in flight never
removes the surplus permits.  Starting from `max_concurrency = 4` with four
acquisitions in flight, `decelerate` sets the limit to 2 but finds no
available permit to remove; after the four releases the controller is
quiescent with `in_flight = 0` and `available_permits = 4 ≠ 2 =
current_limit`, so the invariant `in_flight + available_permits =
current_limit` is not restored. -/
theorem concurrency_resize_leaks_permits :
    runCC c1Ops (initCC 4 none) =
      some { maxConcurrency := 4, limit := 2, semValue := 4, inFlight := 0 } ∧
    ¬ ((0 : ℤ) + ((4 : ℕ) : ℤ) = ((2 : ℕ) : ℤ)) := by
  constructor
  · rfl
  · decide

/-! ## CircuitBreaker (`gentlify/_circuit_breaker.py`)

Three-state machine; `open` is rendered `opened` (a Lean keyword otherwise).
`check`, `record_success`, `record_failure` and the `state` getter are the
four entry points; `check` returns `some retry_after` in place of raising
`CircuitOpenError`. -/

inductive BrState
  | closed
  | opened
  | halfOpen
  deriving Repr, DecidableEq

structure BreakerCfg where
  consecutiveFailures : ℕ
  openDuration : ℚ
  halfOpenMaxCalls : ℕ
  deriving Repr, DecidableEq

structure Breaker where
  state : BrState
  consecutiveFailures : ℕ
  halfOpenSuccesses : ℕ
  openedAt : ℚ
  currentOpenDuration : ℚ
  halfOpenProbes : ℕ
  deriving Repr, DecidableEq

def initBreaker (cfg : BreakerCfg) : Breaker :=
  { state := .closed, consecutiveFailures := 0, halfOpenSuccesses := 0,
    openedAt := 0, currentOpenDuration := cfg.openDuration, halfOpenProbes := 0 }

/-- `_maybe_transition_to_half_open`: when OPEN and the current lockout has
elapsed, move to HALF_OPEN and reset the probe and success counters. -/
def maybeHalfOpen (now : ℚ) (b : Breaker) : Breaker :=
  if b.state = .opened ∧ b.currentOpenDuration ≤ now - b.openedAt then
    { b with state := .halfOpen, halfOpenSuccesses := 0, halfOpenProbes := 0 }
  else b

/-- `check`: the second component is `some retry_after` when the call raises
`CircuitOpenError`, `none` when the call passes. -/
def checkBreaker (cfg : BreakerCfg) (now : ℚ) (b : Breaker) : Breaker × Option ℚ :=
  let b1 := maybeHalfOpen now b
  if b1.state = .opened then
    (b1, some (max 0 (b1.currentOpenDuration - (now - b1.openedAt))))
  else if b1.state = .halfOpen then
    if cfg.halfOpenMaxCalls ≤ b1.halfOpenProbes then
      (b1, some (max 0 (b1.currentOpenDuration - (now - b1.openedAt))))
    else ({ b1 with halfOpenProbes := b1.halfOpenProbes + 1 }, none)
  else (b1, none)

def recordSuccessB (cfg : BreakerCfg) (b : Breaker) : Breaker :=
  let b1 := { b with consecutiveFailures := 0 }
  if b1.state = .halfOpen then
    if cfg.halfOpenMaxCalls ≤ b1.halfOpenSuccesses + 1 then
      { b1 with state := .closed, currentOpenDuration := cfg.openDuration,
                halfOpenSuccesses := 0, halfOpenProbes := 0 }
    else { b1 with halfOpenSuccesses := b1.halfOpenSuccesses + 1 }
  else b1

/-- `_open_circuit`: note that it does not touch `current_open_duration`. -/
def openCircuit (now : ℚ) (b : Breaker) : Breaker :=
  { b with state := .opened, openedAt := now,
           halfOpenSuccesses := 0, halfOpenProbes := 0 }

def recordFailureB (cfg : BreakerCfg) (now : ℚ) (b : Breaker) : Breaker :=
  let b1 := { b with consecutiveFailures := b.consecutiveFailures + 1 }
  if b1.state = .halfOpen then
    openCircuit now
      { b1 with currentOpenDuration :=
                  min (b1.currentOpenDuration * 2) (cfg.openDuration * 5) }
  else if cfg.consecutiveFailures ≤ b1.consecutiveFailures then
    openCircuit now b1
  else b1

/-- The `state` property getter (it runs the OPEN→HALF_OPEN transition). -/
def stateGetB (now : ℚ) (b : Breaker) : Breaker :=
  maybeHalfOpen now b

inductive BrOp
  | check (now : ℚ)
  | recordSuccess
  | recordFailure (now : ℚ)
  | stateGet (now : ℚ)
  deriving Repr, DecidableEq

def stepB (cfg : BreakerCfg) (b : Breaker) : BrOp → Breaker
  | .check now => (checkBreaker cfg now b).1
  | .recordSuccess => recordSuccessB cfg b
  | .recordFailure now => recordFailureB cfg now b
  | .stateGet now => stateGetB now b

/-- The breaker state reached from the initial state by a sequence of
operations. -/
def runB (cfg : BreakerCfg) (ops : List BrOp) : Breaker :=
  ops.foldl (stepB cfg) (initBreaker cfg)

theorem stepB_closedBase (cfg : BreakerCfg) (b : Breaker) (op : BrOp)
    (hb : b.state = .closed → b.currentOpenDuration = cfg.openDuration) :
    (stepB cfg b op).state = .closed →
    (stepB cfg b op).currentOpenDuration = cfg.openDuration := by
  cases op <;>
    simp only [stepB, checkBreaker, recordSuccessB, recordFailureB, stateGetB,
      maybeHalfOpen, openCircuit] <;>
    split_ifs <;> simp_all

theorem foldl_closedBase (cfg : BreakerCfg) (ops : List BrOp) :
    ∀ b : Breaker, (b.state = .closed → b.currentOpenDuration = cfg.openDuration) →
      ((ops.foldl (stepB cfg) b).state = .closed →
        (ops.foldl (stepB cfg) b).currentOpenDuration = cfg.openDuration) := by
  induction ops with
  | nil => intro b hb; exact hb
  | cons op rest ih =>
    intro b hb
    exact ih (stepB cfg b op) (stepB_closedBase cfg b op hb)

/-- Reachability invariant: every reachable CLOSED breaker state carries the
base lockout duration. -/
theorem runB_closedBase (cfg : BreakerCfg) (ops : List BrOp) :
    (runB cfg ops).state = .closed →
    (runB cfg ops).currentOpenDuration = cfg.openDuration :=
  foldl_closedBase cfg ops (initBreaker cfg) (fun _ => rfl)

/-- C3: in every reachable CLOSED breaker state, a `record_failure` that brings
the consecutive-failure count to the threshold transitions to OPEN with the
current lockout duration equal to `base_open_duration` (the code never resets
the duration in `_open_circuit`; the equality holds because every reachable
CLOSED state already carries the base duration). -/
theorem breaker_closed_opens_with_base_duration (cfg : BreakerCfg) (ops : List BrOp)
    (now : ℚ)
    (hclosed : (runB cfg ops).state = .closed)
    (hth : (runB cfg ops).consecutiveFailures + 1 = cfg.consecutiveFailures) :
    (recordFailureB cfg now (runB cfg ops)).state = .opened ∧
    (recordFailureB cfg now (runB cfg ops)).currentOpenDuration = cfg.openDuration := by
  have hD := runB_closedBase cfg ops hclosed
  unfold recordFailureB openCircuit
  rw [if_neg (by simp [hclosed]), if_pos (by simp [hth.ge])]
  exact ⟨rfl, hD⟩

/-- A reachable CLOSED state that has already been through a full
open → half-open → closed cycle: threshold 2, base duration 3; two failures
open it at time 0, the `state` read at time 3 moves it to HALF_OPEN, a success
closes it, and a further failure at time 10 leaves it CLOSED with one
consecutive failure. -/
def brOpsC3 : List BrOp :=
  [.recordFailure 0, .recordFailure 0, .stateGet 3, .recordSuccess, .recordFailure 10]

theorem breaker_closed_opens_with_base_duration_witness :
    ((runB ⟨2, 3, 1⟩ brOpsC3).state = .closed ∧
      (runB ⟨2, 3, 1⟩ brOpsC3).consecutiveFailures + 1 = 2) ∧
    ((recordFailureB ⟨2, 3, 1⟩ 20 (runB ⟨2, 3, 1⟩ brOpsC3)).state = .opened ∧
      (recordFailureB ⟨2, 3, 1⟩ 20 (runB ⟨2, 3, 1⟩ brOpsC3)).currentOpenDuration = 3) := by
  refine ⟨⟨?_, ?_⟩, breaker_closed_opens_with_base_duration ⟨2, 3, 1⟩ brOpsC3 20 ?_ ?_⟩ <;>
    simp [runB, brOpsC3, stepB, recordFailureB, recordSuccessB, stateGetB,
      maybeHalfOpen, openCircuit, initBreaker, checkBreaker]

theorem stepB_boundedD (cfg : BreakerCfg) (b : Breaker) (op : BrOp)
    (hbase : 0 ≤ cfg.openDuration)
    (hb : b.currentOpenDuration ≤ 5 * cfg.openDuration) :
    (stepB cfg b op).currentOpenDuration ≤ 5 * cfg.openDuration := by
  have hmin : min (b.currentOpenDuration * 2) (cfg.openDuration * 5) ≤
      5 * cfg.openDuration := by
    rw [mul_comm cfg.openDuration 5]
    exact min_le_right _ _
  have h5 : cfg.openDuration ≤ 5 * cfg.openDuration := by linarith
  cases op <;>
    simp only [stepB, checkBreaker, recordSuccessB, recordFailureB, stateGetB,
      maybeHalfOpen, openCircuit] <;>
    split_ifs <;> simp_all

theorem foldl_boundedD (cfg : BreakerCfg) (ops : List BrOp)
    (hbase : 0 ≤ cfg.openDuration) :
    ∀ b : Breaker, b.currentOpenDuration ≤ 5 * cfg.openDuration →
      (ops.foldl (stepB cfg) b).currentOpenDuration ≤ 5 * cfg.openDuration := by
  induction ops with
  | nil => intro b hb; exact hb
  | cons op rest ih =>
    intro b hb
    exact ih (stepB cfg b op) (stepB_boundedD cfg b op hbase hb)

/-- C4: over every operation sequence the current lockout duration never
exceeds `5 × base_open_duration`, and a failure recorded in HALF_OPEN re-opens
the circuit with duration `min (2·D) (5·base)`. -/
theorem breaker_backoff_bounded (cfg : BreakerCfg) (ops : List BrOp)
    (hbase : 0 ≤ cfg.openDuration) :
    (runB cfg ops).currentOpenDuration ≤ 5 * cfg.openDuration ∧
    (∀ (b : Breaker) (now : ℚ), b.state = .halfOpen →
      (recordFailureB cfg now b).state = .opened ∧
      (recordFailureB cfg now b).currentOpenDuration =
        min (2 * b.currentOpenDuration) (5 * cfg.openDuration)) := by
  constructor
  · exact foldl_boundedD cfg ops hbase (initBreaker cfg)
      (by simp only [initBreaker]; linarith)
  · intro b now hho
    unfold recordFailureB openCircuit
    rw [if_pos (by simp [hho])]
    constructor
    · rfl
    · simp only
      rw [mul_comm b.currentOpenDuration 2, mul_comm cfg.openDuration 5]

/-- A sequence with two half-open failures: the lockout doubles from 3 to 6 to
12, staying below the cap `5 × 3 = 15`. -/
def brOpsC4 : List BrOp :=
  [.recordFailure 0, .recordFailure 0, .stateGet 3, .recordFailure 4,
   .stateGet 20, .recordFailure 20]

theorem breaker_backoff_bounded_witness :
    (0 : ℚ) ≤ 3 ∧
    ((runB ⟨2, 3, 1⟩ brOpsC4).currentOpenDuration ≤ 5 * 3 ∧
      (∀ (b : Breaker) (now : ℚ), b.state = .halfOpen →
        (recordFailureB ⟨2, 3, 1⟩ now b).state = .opened ∧
        (recordFailureB ⟨2, 3, 1⟩ now b).currentOpenDuration =
          min (2 * b.currentOpenDuration) (5 * (3 : ℚ)))) :=
  ⟨by norm_num, breaker_backoff_bounded ⟨2, 3, 1⟩ brOpsC4 (by norm_num)⟩

/-! ## ProgressTracker (`gentlify/_progress.py`)

Completion counting, a 50-deep rolling duration ring, and milestone
detection.  Python's `int()` truncates toward zero, rendered `pyInt`. -/

def pyInt (q : ℚ) : ℤ :=
  if q < 0 then ⌈q⌉ else ⌊q⌋

/-- `deque(maxlen=cap).append`: append on the right, drop from the left past
capacity. -/
def ringPush (cap : ℕ) (d : ℚ) (l : List ℚ) : List ℚ :=
  let l2 := l ++ [d]
  if cap < l2.length then l2.drop (l2.length - cap) else l2

structure Progress where
  totalTasks : ℤ
  milestonePct : ℚ
  completed : ℕ
  durations : List ℚ
  lastMilestone : ℤ
  deriving Repr, DecidableEq

def initProgress (totalTasks : ℤ) (milestonePct : ℚ) : Progress :=
  { totalTasks := totalTasks, milestonePct := milestonePct, completed := 0,
    durations := [], lastMilestone := 0 }

def percentage (p : Progress) : ℚ :=
  if p.totalTasks ≤ 0 then 0
  else min 100 (((p.completed : ℚ) / (p.totalTasks : ℚ)) * 100)

/-- `record_completion`: returns the updated tracker and the milestone flag. -/
def recordCompletion (d : ℚ) (p : Progress) : Progress × Bool :=
  let p1 := { p with completed := p.completed + 1,
                     durations := ringPush 50 d p.durations }
  if p1.totalTasks ≤ 0 ∨ p1.milestonePct ≤ 0 then (p1, false)
  else
    let m := pyInt (percentage p1 / p1.milestonePct)
    if p1.lastMilestone < m then ({ p1 with lastMilestone := m }, true)
    else (p1, false)

def etaSeconds (p : Progress) : Option ℚ :=
  if p.durations = [] ∨ p.totalTasks ≤ 0 then none
  else if p.totalTasks - (p.completed : ℤ) ≤ 0 then some 0
  else some ((p.durations.sum / (p.durations.length : ℚ)) *
    (((p.totalTasks : ℚ) - (p.completed : ℚ))))

/-- The percentage after `k` completions out of `total`. -/
def pctOf (total : ℤ) (k : ℕ) : ℚ :=
  if total ≤ 0 then 0 else min 100 (((k : ℚ) / (total : ℚ)) * 100)

/-- The integer milestone index after `k` completions. -/
def milestoneIdx (total : ℤ) (mpct : ℚ) (k : ℕ) : ℤ :=
  pyInt (pctOf total k / mpct)

/-- The tracker after `k` completions with durations `ds 0, …, ds (k-1)`. -/
def runProgress (total : ℤ) (mpct : ℚ) (ds : ℕ → ℚ) : ℕ → Progress
  | 0 => initProgress total mpct
  | k + 1 => (recordCompletion (ds k) (runProgress total mpct ds k)).1

theorem runProgress_fields (total : ℤ) (mpct : ℚ) (ds : ℕ → ℚ) (k : ℕ) :
    (runProgress total mpct ds k).totalTasks = total ∧
    (runProgress total mpct ds k).milestonePct = mpct ∧
    (runProgress total mpct ds k).completed = k := by
  induction k with
  | zero => exact ⟨rfl, rfl, rfl⟩
  | succ k ih =>
    rcases ih with ⟨ht, hm, hc⟩
    simp only [runProgress, recordCompletion]
    split_ifs <;> simp_all

theorem pyInt_mono_of_nonneg (a b : ℚ) (ha : 0 ≤ a) (hab : a ≤ b) :
    pyInt a ≤ pyInt b := by
  unfold pyInt
  rw [if_neg (not_lt.mpr ha), if_neg (not_lt.mpr (ha.trans hab))]
  exact Int.floor_le_floor hab

theorem pctOf_nonneg (total : ℤ) (k : ℕ) : 0 ≤ pctOf total k := by
  unfold pctOf
  split_ifs with h
  · exact le_refl 0
  · have : (0 : ℚ) < (total : ℚ) := by exact_mod_cast lt_of_not_le h
    positivity

theorem pctOf_mono (total : ℤ) (j k : ℕ) (hjk : j ≤ k) :
    pctOf total j ≤ pctOf total k := by
  unfold pctOf
  split_ifs with h
  · exact le_refl 0
  · have ht : (0 : ℚ) < (total : ℚ) := by exact_mod_cast lt_of_not_le h
    have hjk2 : ((j : ℚ) / (total : ℚ)) * 100 ≤ ((k : ℚ) / (total : ℚ)) * 100 := by
      have : (j : ℚ) ≤ (k : ℚ) := by exact_mod_cast hjk
      gcongr
    exact min_le_min (le_refl 100) hjk2

theorem milestoneIdx_mono (total : ℤ) (mpct : ℚ) (j k : ℕ)
    (h2 : 0 < mpct) (hjk : j ≤ k) :
    milestoneIdx total mpct j ≤ milestoneIdx total mpct k := by
  unfold milestoneIdx
  refine pyInt_mono_of_nonneg _ _ (div_nonneg (pctOf_nonneg total j) h2.le) ?_
  exact (div_le_div_iff_of_pos_right h2).mpr (pctOf_mono total j k hjk)

theorem percentage_eq_pctOf (p : Progress) :
    percentage p = pctOf p.totalTasks p.completed := rfl

theorem milestoneIdx_zero (total : ℤ) (mpct : ℚ) (h1 : 0 < total) :
    milestoneIdx total mpct 0 = 0 := by
  unfold milestoneIdx pctOf pyInt
  rw [if_neg (not_le.mpr h1)]
  norm_num

theorem milestoneIdx_def (total : ℤ) (mpct : ℚ) (k : ℕ) :
    pyInt (pctOf total k / mpct) = milestoneIdx total mpct k := rfl

/-- Closed form of `record_completion` when the guard passes. -/
theorem recordCompletion_closed_form (total : ℤ) (mpct d : ℚ) (p : Progress)
    (h1 : 0 < total) (h2 : 0 < mpct)
    (ht : p.totalTasks = total) (hm : p.milestonePct = mpct) :
    recordCompletion d p =
      (if p.lastMilestone < milestoneIdx total mpct (p.completed + 1) then
        ({ p with completed := p.completed + 1,
                  durations := ringPush 50 d p.durations,
                  lastMilestone := milestoneIdx total mpct (p.completed + 1) }, true)
      else
        ({ p with completed := p.completed + 1,
                  durations := ringPush 50 d p.durations }, false)) := by
  unfold recordCompletion
  rw [if_neg (by rw [ht, hm]; push_neg; exact ⟨h1, h2⟩)]
  have hpct : percentage { p with completed := p.completed + 1,
                                  durations := ringPush 50 d p.durations } =
      pctOf total (p.completed + 1) := by
    rw [percentage_eq_pctOf]
    simp only [ht]
  simp only [hpct]
  simp only [hm, milestoneIdx_def]

theorem runProgress_step (total : ℤ) (mpct : ℚ) (ds : ℕ → ℚ) (k : ℕ)
    (h1 : 0 < total) (h2 : 0 < mpct)
    (hlast : (runProgress total mpct ds k).lastMilestone = milestoneIdx total mpct k) :
    ((recordCompletion (ds k) (runProgress total mpct ds k)).2 = true ↔
      milestoneIdx total mpct k < milestoneIdx total mpct (k + 1)) ∧
    (runProgress total mpct ds (k + 1)).lastMilestone = milestoneIdx total mpct (k + 1) := by
  obtain ⟨ht, hm, hc⟩ := runProgress_fields total mpct ds k
  have hcf := recordCompletion_closed_form total mpct (ds k)
    (runProgress total mpct ds k) h1 h2 ht hm
  rw [hc, hlast] at hcf
  have hmono := milestoneIdx_mono total mpct k (k + 1) h2 (Nat.le_succ k)
  constructor
  · rw [hcf]
    by_cases hlt : milestoneIdx total mpct k < milestoneIdx total mpct (k + 1)
    · rw [if_pos hlt]
      simpa using hlt
    · rw [if_neg hlt]
      simpa using hlt
  · show ((recordCompletion (ds k) (runProgress total mpct ds k)).1).lastMilestone = _
    rw [hcf]
    by_cases hlt : milestoneIdx total mpct k < milestoneIdx total mpct (k + 1)
    · rw [if_pos hlt]
    · rw [if_neg hlt]
      exact hlast.symm.trans hlast |>.trans (le_antisymm hmono (not_lt.mp hlt))

theorem runProgress_lastMilestone (total : ℤ) (mpct : ℚ) (ds : ℕ → ℚ)
    (h1 : 0 < total) (h2 : 0 < mpct) (k : ℕ) :
    (runProgress total mpct ds k).lastMilestone = milestoneIdx total mpct k := by
  induction k with
  | zero => rw [milestoneIdx_zero total mpct h1]; rfl
  | succ k ih => exact (runProgress_step total mpct ds k h1 h2 ih).2

theorem idx_ten (j : ℕ) (hj : j ≤ 10) : milestoneIdx 10 10 j = j := by
  have hpct : pctOf 10 j = (j : ℚ) * 10 := by
    unfold pctOf
    rw [if_neg (by norm_num)]
    have hj100 : ((j : ℚ) / (((10 : ℤ) : ℚ))) * 100 = (j : ℚ) * 10 := by
      push_cast
      ring
    rw [hj100]
    refine min_eq_right ?_
    have : (j : ℚ) ≤ 10 := by exact_mod_cast hj
    linarith
  unfold milestoneIdx
  rw [hpct]
  have hdiv : ((j : ℚ) * 10) / 10 = (j : ℚ) := by ring
  rw [hdiv]
  unfold pyInt
  rw [if_neg (not_lt.mpr (by positivity))]
  exact Int.floor_natCast j

/-- C7: `record_completion` returns true exactly when the integer milestone
index `floor(percentage / milestone_pct)` has increased since the previous
call; milestone indices never decrease across successive calls; and with
`milestone_pct = 10` and `total = 10` each of the first ten completions
fires a milestone. -/
theorem progress_milestones (total : ℤ) (mpct : ℚ) (ds : ℕ → ℚ) (k : ℕ)
    (h1 : 0 < total) (h2 : 0 < mpct) :
    ((recordCompletion (ds k) (runProgress total mpct ds k)).2 = true ↔
      milestoneIdx total mpct k < milestoneIdx total mpct (k + 1)) ∧
    milestoneIdx total mpct k ≤ milestoneIdx total mpct (k + 1) ∧
    (∀ j : ℕ, j < 10 →
      (recordCompletion 0 (runProgress 10 10 (fun _ => 0) j)).2 = true) := by
  refine ⟨(runProgress_step total mpct ds k h1 h2
      (runProgress_lastMilestone total mpct ds h1 h2 k)).1,
    milestoneIdx_mono total mpct k (k + 1) h2 (Nat.le_succ k), ?_⟩
  intro j hj
  have hstep := (runProgress_step 10 10 (fun _ => 0) j (by norm_num) (by norm_num)
    (runProgress_lastMilestone 10 10 (fun _ => 0) (by norm_num) (by norm_num) j)).1
  have h10 : milestoneIdx 10 10 j < milestoneIdx 10 10 (j + 1) := by
    rw [idx_ten j (le_of_lt hj), idx_ten (j + 1) (by omega)]
    exact_mod_cast Nat.lt_succ_self j
  exact hstep.mpr h10

/-- Concrete check of `progress_milestones` at `total = 10`, `milestone_pct =
10`, fourth completion. -/
theorem progress_milestones_witness :
    ((0 : ℤ) < 10 ∧ (0 : ℚ) < 10) ∧
    (((recordCompletion ((fun _ => (0 : ℚ)) 3) (runProgress 10 10 (fun _ => 0) 3)).2 = true ↔
      milestoneIdx 10 10 3 < milestoneIdx 10 10 (3 + 1)) ∧
      milestoneIdx 10 10 3 ≤ milestoneIdx 10 10 (3 + 1) ∧
      (∀ j : ℕ, j < 10 →
        (recordCompletion 0 (runProgress 10 10 (fun _ => 0) j)).2 = true)) :=
  ⟨⟨by norm_num, by norm_num⟩,
    progress_milestones 10 10 (fun _ => 0) 3 (by norm_num) (by norm_num)⟩

/-! ## TokenBucket (`gentlify/_token_bucket.py`)

A SlidingWindow of token counts.  `wait_for_budget` loops while the remaining
budget is short, sleeping until the oldest live entry ages out
(`oldest.ts + window_seconds - now`, plus the 0.001 s epsilon); the
`tokens_remaining` read prunes the deque, so the loop body inspects the pruned
entries.  The loop is modelled with explicit fuel; `none` means the fuel ran
out before the loop returned. -/

def tokensUsed (w now : ℚ) (E : List (ℚ × ℚ)) : ℤ :=
  pyInt (totalW w now E)

def tokensRemaining (maxTokens : ℤ) (w now : ℚ) (E : List (ℚ × ℚ)) : ℤ :=
  max 0 (maxTokens - tokensUsed w now E)

def consumeTB (now : ℚ) (tokens : ℤ) (E : List (ℚ × ℚ)) : List (ℚ × ℚ) :=
  recordW now (tokens : ℚ) E

def waitForBudgetLoop (maxTokens : ℤ) (w : ℚ) (need : ℤ) :
    ℕ → ℚ → List (ℚ × ℚ) → Option ℚ
  | 0, _, _ => none
  | fuel + 1, now, E =>
    if tokensRemaining maxTokens w now E < need then
      match pruneW w now E with
      | [] => some now
      | (ts, v) :: rest =>
        waitForBudgetLoop maxTokens w need fuel
          (now + (max 0 (ts + w - now) + 1 / 1000)) ((ts, v) :: rest)
    else some now

theorem pyInt_zero : pyInt 0 = 0 := by
  unfold pyInt
  norm_num

theorem waitForBudgetLoop_terminates (maxTokens need : ℤ) (w : ℚ) :
    ∀ (fuel : ℕ) (now : ℚ) (E : List (ℚ × ℚ)),
      (pruneW w now E).length < fuel →
      (waitForBudgetLoop maxTokens w need fuel now E).isSome = true := by
  intro fuel
  induction fuel with
  | zero => intro now E h; omega
  | succ fuel ih =>
    intro now E h
    unfold waitForBudgetLoop
    split_ifs with hrem
    · cases hE : pruneW w now E with
      | nil => simp [hE]
      | cons hd rest =>
        obtain ⟨ts, v⟩ := hd
        show (waitForBudgetLoop maxTokens w need fuel
          (now + (max 0 (ts + w - now) + 1 / 1000)) ((ts, v) :: rest)).isSome = true
        apply ih
        have hdrop : pruneW w (now + (max 0 (ts + w - now) + 1 / 1000)) ((ts, v) :: rest) =
            pruneW w (now + (max 0 (ts + w - now) + 1 / 1000)) rest := by
          unfold pruneW
          rw [List.dropWhile_cons_of_pos]
          simp only [decide_eq_true_eq]
          have hmax : ts + w - now ≤ max 0 (ts + w - now) := le_max_right _ _
          linarith
        rw [hdrop]
        have hlen : (pruneW w (now + (max 0 (ts + w - now) + 1 / 1000)) rest).length ≤
            rest.length := ((List.dropWhile_suffix _).sublist).length_le
        have hlen2 : rest.length + 1 ≤ fuel := by
          have := hE ▸ h
          simpa using this
        omega
    · simp

/-- C5: if during `wait_for_budget(need)` the window holds no live entries
while `tokens_remaining < need`, the loop breaks and the call returns at the
current time; with the window empty that shortfall holds exactly when `need >
max_tokens`; and the loop always terminates within one iteration per live
entry plus one. -/
theorem wait_for_budget_overbudget_exit (maxTokens need : ℤ) (w now : ℚ)
    (E : List (ℚ × ℚ)) (hmax : 0 ≤ maxTokens) :
    (pruneW w now E = [] →
      (tokensRemaining maxTokens w now E < need ↔ maxTokens < need)) ∧
    (pruneW w now E = [] → tokensRemaining maxTokens w now E < need →
      ∀ fuel : ℕ, waitForBudgetLoop maxTokens w need (fuel + 1) now E = some now) ∧
    (∀ fuel : ℕ, (pruneW w now E).length < fuel →
      (waitForBudgetLoop maxTokens w need fuel now E).isSome = true) := by
  have hrem : pruneW w now E = [] →
      tokensRemaining maxTokens w now E = maxTokens := by
    intro hE
    unfold tokensRemaining tokensUsed totalW
    rw [hE]
    simp [pyInt_zero, max_eq_right hmax]
  refine ⟨?_, ?_, fun fuel => waitForBudgetLoop_terminates maxTokens need w fuel now E⟩
  · intro hE
    rw [hrem hE]
  · intro hE hlt fuel
    unfold waitForBudgetLoop
    rw [if_pos hlt, hE]

/-- Concrete check of `wait_for_budget_overbudget_exit`: budget 2, need 5,
window 10 read at time 20 over a single expired entry. -/
theorem wait_for_budget_overbudget_exit_witness :
    (0 : ℤ) ≤ 2 ∧
    ((pruneW 10 20 [((5 : ℚ), (2 : ℚ))] = [] →
      (tokensRemaining 2 10 20 [((5 : ℚ), (2 : ℚ))] < 5 ↔ (2 : ℤ) < 5)) ∧
    (pruneW 10 20 [((5 : ℚ), (2 : ℚ))] = [] →
      tokensRemaining 2 10 20 [((5 : ℚ), (2 : ℚ))] < 5 →
      ∀ fuel : ℕ,
        waitForBudgetLoop 2 10 5 (fuel + 1) 20 [((5 : ℚ), (2 : ℚ))] = some 20) ∧
    (∀ fuel : ℕ, (pruneW 10 20 [((5 : ℚ), (2 : ℚ))]).length < fuel →
      (waitForBudgetLoop 2 10 5 fuel 20 [((5 : ℚ), (2 : ℚ))]).isSome = true)) :=
  ⟨by norm_num, wait_for_budget_overbudget_exit 2 5 10 20 [((5 : ℚ), (2 : ℚ))] (by norm_num)⟩

/-! ## RetryHandler (`gentlify/_retry.py`)

`compute_delay` for a zero-indexed attempt number; the injected `rand_fn`
(Python `random.uniform`) is modelled as an arbitrary function of the two
bounds. -/

inductive Backoff
  | fixed
  | exponential
  | exponentialJitter
  deriving Repr, DecidableEq

structure RetryCfg where
  maxAttempts : ℕ
  backoff : Backoff
  baseDelay : ℚ
  maxDelay : ℚ
  deriving Repr, DecidableEq

def computeDelay (cfg : RetryCfg) (rand : ℚ → ℚ → ℚ) (attempt : ℕ) : ℚ :=
  match cfg.backoff with
  | .fixed => cfg.baseDelay
  | .exponential => min (cfg.baseDelay * 2 ^ attempt) cfg.maxDelay
  | .exponentialJitter => rand 0 (min (cfg.baseDelay * 2 ^ attempt) cfg.maxDelay)

/-- C9: the backoff delay is `base_delay` for the fixed strategy,
`min(base_delay · 2^n, max_delay)` for the exponential strategy, and a draw
`rand_fn(0, min(base_delay · 2^n, max_delay))` under exponential jitter — in
particular, for any `rand_fn` that honours its bounds, the jitter delay lies
in `[0, min(base_delay · 2^n, max_delay)]`. -/
theorem retry_backoff_formulas (cfg : RetryCfg) (rand : ℚ → ℚ → ℚ) (n : ℕ) :
    (cfg.backoff = .fixed → computeDelay cfg rand n = cfg.baseDelay) ∧
    (cfg.backoff = .exponential →
      computeDelay cfg rand n = min (cfg.baseDelay * 2 ^ n) cfg.maxDelay) ∧
    (cfg.backoff = .exponentialJitter →
      computeDelay cfg rand n = rand 0 (min (cfg.baseDelay * 2 ^ n) cfg.maxDelay)) ∧
    ((∀ a b : ℚ, a ≤ b → a ≤ rand a b ∧ rand a b ≤ b) →
      cfg.backoff = .exponentialJitter →
      0 ≤ cfg.baseDelay → 0 ≤ cfg.maxDelay →
      0 ≤ computeDelay cfg rand n ∧
        computeDelay cfg rand n ≤ min (cfg.baseDelay * 2 ^ n) cfg.maxDelay) := by
  refine ⟨?_, ?_, ?_, ?_⟩
  · intro h
    unfold computeDelay
    rw [h]
  · intro h
    unfold computeDelay
    rw [h]
  · intro h
    unfold computeDelay
    rw [h]
  · intro hrand h hbase hmax
    have hbound : (0 : ℚ) ≤ min (cfg.baseDelay * 2 ^ n) cfg.maxDelay :=
      le_min (mul_nonneg hbase (pow_nonneg (by norm_num) n)) hmax
    have hin := hrand 0 (min (cfg.baseDelay * 2 ^ n) cfg.maxDelay) hbound
    unfold computeDelay
    rw [h]
    exact hin

/-- Concrete check of `retry_backoff_formulas` at attempt 2 with base delay 1,
max delay 10 and the lower-bound draw for `rand_fn`. -/
theorem retry_backoff_formulas_witness :
    computeDelay ⟨3, .fixed, 1, 10⟩ (fun a _ => a) 2 = 1 ∧
    computeDelay ⟨3, .exponential, 1, 10⟩ (fun a _ => a) 2 =
      min ((1 : ℚ) * 2 ^ 2) 10 ∧
    computeDelay ⟨3, .exponentialJitter, 1, 10⟩ (fun a _ => a) 2 =
      (fun a _ => a) (0 : ℚ) (min ((1 : ℚ) * 2 ^ 2) 10) ∧
    (0 ≤ computeDelay ⟨3, .exponentialJitter, 1, 10⟩ (fun a _ => a) 2 ∧
      computeDelay ⟨3, .exponentialJitter, 1, 10⟩ (fun a _ => a) 2 ≤
        min ((1 : ℚ) * 2 ^ 2) 10) :=
  ⟨(retry_backoff_formulas ⟨3, .fixed, 1, 10⟩ (fun a _ => a) 2).1 rfl,
   (retry_backoff_formulas ⟨3, .exponential, 1, 10⟩ (fun a _ => a) 2).2.1 rfl,
   (retry_backoff_formulas ⟨3, .exponentialJitter, 1, 10⟩ (fun a _ => a) 2).2.2.1 rfl,
   (retry_backoff_formulas ⟨3, .exponentialJitter, 1, 10⟩ (fun a _ => a) 2).2.2.2
     (fun a b hab => ⟨le_refl a, hab⟩) rfl (by norm_num) (by norm_num)⟩

/-! ## Slot (`gentlify/_slot.py`) and Throttle orchestrator (`gentlify/_throttle.py`)

Exceptions are abstracted as natural-number codes; the configured failure
predicate maps codes to booleans.  Callback invocation (`on_state_change`,
`on_progress`) and logging are external side effects and carry no state.
`handleFailure` is `Throttle._handle_failure`, `handleSuccess` is
`Throttle._handle_success`, and `slotExit` is the `finally` block of
`Throttle.acquire`: run the matching handler, then release the concurrency
permit unconditionally. -/

structure Slot where
  tokensReported : ℤ
  attempt : ℕ
  deriving Repr, DecidableEq

def initSlot : Slot := { tokensReported := 0, attempt := 0 }

def recordTokens (count : ℤ) (s : Slot) : Slot :=
  { s with tokensReported := s.tokensReported + count }

inductive Lifecycle
  | running
  | cooling
  | closed
  | draining
  deriving Repr, DecidableEq

structure ThrottleCfg where
  maxConcurrency : ℕ
  initialConcurrency : Option ℕ
  minDispatchInterval : ℚ
  maxDispatchInterval : ℚ
  failureThreshold : ℕ
  failureWindow : ℚ
  coolingPeriod : ℚ
  safeCeilingDecayMultiplier : ℚ
  totalTasks : ℤ
  failurePredicate : Option (ℕ → Bool)
  tokenBudget : Option (ℤ × ℚ)
  circuitBreaker : Option BreakerCfg

structure ThrottleSt where
  cc : CC
  dispatchInterval : ℚ
  failureEntries : List (ℚ × ℚ)
  progress : Progress
  tokenEntries : List (ℚ × ℚ)
  breaker : Option Breaker
  lifecycle : Lifecycle
  safeCeiling : ℕ
  coolingStart : Option ℚ
  lastFailureTime : Option ℚ

def initThrottleSt (cfg : ThrottleCfg) : ThrottleSt :=
  { cc := initCC cfg.maxConcurrency cfg.initialConcurrency,
    dispatchInterval := cfg.minDispatchInterval,
    failureEntries := [],
    progress := initProgress cfg.totalTasks 10,
    tokenEntries := [],
    breaker := cfg.circuitBreaker.map initBreaker,
    lifecycle := .running,
    safeCeiling := cfg.maxConcurrency,
    coolingStart := none,
    lastFailureTime := none }

/-- Steps 2–4 of `_handle_failure` (after the predicate filter). -/
def handleFailureCore (cfg : ThrottleCfg) (now : ℚ) (s : ThrottleSt) : ThrottleSt :=
  let fe := recordW now 1 s.failureEntries
  let br := match cfg.circuitBreaker, s.breaker with
    | some bcfg, some b => some (recordFailureB bcfg now b)
    | _, _ => s.breaker
  if cfg.failureThreshold ≤ countW cfg.failureWindow now fe then
    { s with cc := (decelerateCC s.cc).2,
             dispatchInterval := min (s.dispatchInterval * 2) cfg.maxDispatchInterval,
             failureEntries := clearW,
             breaker := br,
             lastFailureTime := some now,
             safeCeiling := (decelerateCC s.cc).1.1,
             lifecycle := .cooling,
             coolingStart := some now }
  else
    { s with failureEntries := pruneW cfg.failureWindow now fe,
             breaker := br,
             lastFailureTime := some now }

def handleFailure (cfg : ThrottleCfg) (exc : ℕ) (now : ℚ) (s : ThrottleSt) : ThrottleSt :=
  match cfg.failurePredicate with
  | some p => if p exc = false then s else handleFailureCore cfg now s
  | none => handleFailureCore cfg now s

/-- Step 1 of `_handle_success`: record the success on the breaker. -/
def hsBreaker (cfg : ThrottleCfg) (s : ThrottleSt) : ThrottleSt :=
  { s with breaker := match cfg.circuitBreaker, s.breaker with
      | some bcfg, some b => some (recordSuccessB bcfg b)
      | _, _ => s.breaker }

/-- Step 2 of `_handle_success`: when COOLING and the cooling period has
elapsed, reaccelerate and return to RUNNING. -/
def hsCooling (cfg : ThrottleCfg) (now : ℚ) (s : ThrottleSt) : ThrottleSt :=
  match s.lifecycle, s.coolingStart with
  | .cooling, some cs =>
    if cfg.coolingPeriod ≤ now - cs then
      { s with cc := (reaccelerateCC s.safeCeiling s.cc).2,
               dispatchInterval := max (s.dispatchInterval / 2) cfg.minDispatchInterval,
               lifecycle := .running,
               coolingStart := none }
    else s
  | _, _ => s

/-- Step 3 of `_handle_success`: safe-ceiling decay. -/
def hsDecay (cfg : ThrottleCfg) (now : ℚ) (s : ThrottleSt) : ThrottleSt :=
  match s.lastFailureTime with
  | some lf =>
    if cfg.coolingPeriod * cfg.safeCeilingDecayMultiplier ≤ now - lf then
      { s with safeCeiling := cfg.maxConcurrency, lastFailureTime := none }
    else s
  | none => s

/-- Step 4 of `_handle_success`: consume the tokens reported on the slot. -/
def hsTokens (cfg : ThrottleCfg) (now : ℚ) (tokens : ℤ) (s : ThrottleSt) : ThrottleSt :=
  if cfg.tokenBudget.isSome ∧ 0 < tokens then
    { s with tokenEntries := recordW now (tokens : ℚ) s.tokenEntries }
  else s

/-- Step 5 of `_handle_success`: progress tracking. -/
def hsProgress (duration : ℚ) (s : ThrottleSt) : ThrottleSt :=
  { s with progress := (recordCompletion duration s.progress).1 }

def handleSuccess (cfg : ThrottleCfg) (duration : ℚ) (tokens : ℤ) (now : ℚ)
    (s : ThrottleSt) : ThrottleSt :=
  hsProgress duration
    (hsTokens cfg now tokens (hsDecay cfg now (hsCooling cfg now (hsBreaker cfg s))))

/-- The `finally` block of `Throttle.acquire`: the failure handler when the
body raised, the success handler otherwise, then an unconditional release of
the concurrency permit. -/
def slotExit (cfg : ThrottleCfg) (excOpt : Option ℕ) (slot : Slot)
    (duration now : ℚ) (s : ThrottleSt) : ThrottleSt :=
  let s1 := match excOpt with
    | some exc => handleFailure cfg exc now s
    | none => handleSuccess cfg duration slot.tokensReported now s
  { s1 with cc := releaseCC s1.cc }

theorem resizeSemaphore_limit (n : ℕ) (s : CC) : (resizeSemaphore n s).limit = n := by
  unfold resizeSemaphore
  simp only []
  split_ifs <;> rfl

theorem handleFailureCore_threshold (cfg : ThrottleCfg) (now : ℚ) (s : ThrottleSt)
    (hcount : cfg.failureThreshold ≤
      countW cfg.failureWindow now (recordW now 1 s.failureEntries)) :
    (handleFailureCore cfg now s).cc.limit = max 1 (s.cc.limit / 2) ∧
    (handleFailureCore cfg now s).dispatchInterval =
      min (s.dispatchInterval * 2) cfg.maxDispatchInterval ∧
    (handleFailureCore cfg now s).safeCeiling = s.cc.limit ∧
    (handleFailureCore cfg now s).failureEntries = [] ∧
    countW cfg.failureWindow now (handleFailureCore cfg now s).failureEntries = 0 ∧
    (handleFailureCore cfg now s).lifecycle = .cooling ∧
    (handleFailureCore cfg now s).coolingStart = some now := by
  unfold handleFailureCore
  simp only []
  rw [if_pos hcount]
  refine ⟨?_, rfl, rfl, rfl, rfl, rfl, rfl⟩
  show ((decelerateCC s.cc).2).limit = _
  unfold decelerateCC
  simp only []
  exact resizeSemaphore_limit _ _

/-- C2: a throttle-affecting failure that brings the failure-window count to
the threshold halves the concurrency limit to `max(1, L // 2)`, doubles the
dispatch interval capped at `max_dispatch_interval`, sets `safe_ceiling` to
the pre-deceleration limit, clears the failure window (so the failure count
reads 0 immediately afterwards), moves the lifecycle to COOLING and records
`cooling_start = now`. -/
theorem failure_threshold_decelerates (cfg : ThrottleCfg) (exc : ℕ) (now : ℚ)
    (s : ThrottleSt)
    (hpred : ∀ p, cfg.failurePredicate = some p → p exc = true)
    (hcount : cfg.failureThreshold ≤
      countW cfg.failureWindow now (recordW now 1 s.failureEntries)) :
    (handleFailure cfg exc now s).cc.limit = max 1 (s.cc.limit / 2) ∧
    (handleFailure cfg exc now s).dispatchInterval =
      min (s.dispatchInterval * 2) cfg.maxDispatchInterval ∧
    (handleFailure cfg exc now s).safeCeiling = s.cc.limit ∧
    (handleFailure cfg exc now s).failureEntries = [] ∧
    countW cfg.failureWindow now (handleFailure cfg exc now s).failureEntries = 0 ∧
    (handleFailure cfg exc now s).lifecycle = .cooling ∧
    (handleFailure cfg exc now s).coolingStart = some now := by
  have hcore := handleFailureCore_threshold cfg now s hcount
  unfold handleFailure
  cases hfp : cfg.failurePredicate with
  | none => exact hcore
  | some p =>
    simp only []
    rw [hpred p hfp]
    rw [if_neg (by simp)]
    exact hcore

/-- C6: when a failure predicate is configured and rejects the exception, the
failure handler is a no-op: the whole throttle state (failure window,
last-failure time, breaker, concurrency, dispatch interval, safe ceiling,
lifecycle and cooling start) is unchanged. -/
theorem failure_predicate_filters (cfg : ThrottleCfg) (exc : ℕ) (now : ℚ)
    (s : ThrottleSt) (p : ℕ → Bool)
    (hp : cfg.failurePredicate = some p) (hfalse : p exc = false) :
    handleFailure cfg exc now s = s := by
  unfold handleFailure
  rw [hp]
  simp only []
  rw [hfalse, if_pos rfl]

theorem handleFailure_tokenEntries (cfg : ThrottleCfg) (exc : ℕ) (now : ℚ)
    (s : ThrottleSt) :
    (handleFailure cfg exc now s).tokenEntries = s.tokenEntries := by
  unfold handleFailure handleFailureCore
  simp only []
  repeat' split
  all_goals rfl

theorem hsBreaker_tokenEntries (cfg : ThrottleCfg) (s : ThrottleSt) :
    (hsBreaker cfg s).tokenEntries = s.tokenEntries := rfl

theorem hsCooling_tokenEntries (cfg : ThrottleCfg) (now : ℚ) (s : ThrottleSt) :
    (hsCooling cfg now s).tokenEntries = s.tokenEntries := by
  unfold hsCooling
  repeat' split
  all_goals rfl

theorem hsDecay_tokenEntries (cfg : ThrottleCfg) (now : ℚ) (s : ThrottleSt) :
    (hsDecay cfg now s).tokenEntries = s.tokenEntries := by
  unfold hsDecay
  repeat' split
  all_goals rfl

theorem hsTokens_tokenEntries (cfg : ThrottleCfg) (now : ℚ) (tokens : ℤ)
    (s : ThrottleSt) :
    (hsTokens cfg now tokens s).tokenEntries =
      (if cfg.tokenBudget.isSome ∧ 0 < tokens then
        recordW now (tokens : ℚ) s.tokenEntries
      else s.tokenEntries) := by
  unfold hsTokens
  split
  all_goals rfl

/-- C10: the tokens reported on a Slot (accumulated by `record_tokens`) are
consumed from the token bucket only on a successful exit of the request body;
on every failing exit — whatever the failure predicate decides — the token
window is untouched. -/
theorem tokens_charged_only_on_success (cfg : ThrottleCfg) (slot : Slot)
    (duration now : ℚ) (s : ThrottleSt)
    (hbudget : cfg.tokenBudget.isSome = true) (htok : 0 < slot.tokensReported) :
    (∀ exc : ℕ, (slotExit cfg (some exc) slot duration now s).tokenEntries =
      s.tokenEntries) ∧
    (slotExit cfg none slot duration now s).tokenEntries =
      recordW now ((slot.tokensReported : ℚ)) s.tokenEntries := by
  constructor
  · intro exc
    show (handleFailure cfg exc now s).tokenEntries = s.tokenEntries
    exact handleFailure_tokenEntries cfg exc now s
  · show (handleSuccess cfg duration slot.tokensReported now s).tokenEntries = _
    unfold handleSuccess
    show (hsTokens cfg now slot.tokensReported
      (hsDecay cfg now (hsCooling cfg now (hsBreaker cfg s)))).tokenEntries = _
    rw [hsTokens_tokenEntries, if_pos ⟨hbudget, htok⟩,
      hsDecay_tokenEntries, hsCooling_tokenEntries, hsBreaker_tokenEntries]

/-- A sample configuration: threshold 1, no predicate, no token budget, no
breaker. -/
def sampleCfg : ThrottleCfg :=
  { maxConcurrency := 4, initialConcurrency := none,
    minDispatchInterval := 1, maxDispatchInterval := 30,
    failureThreshold := 1, failureWindow := 60,
    coolingPeriod := 60, safeCeilingDecayMultiplier := 5,
    totalTasks := 0, failurePredicate := none,
    tokenBudget := none, circuitBreaker := none }

def sampleSt : ThrottleSt := initThrottleSt sampleCfg

/-- Concrete check of `failure_threshold_decelerates`: threshold 1, one
failure at time 5 from the fresh state. -/
theorem failure_threshold_decelerates_witness :
    ((∀ p, sampleCfg.failurePredicate = some p → p 0 = true) ∧
      sampleCfg.failureThreshold ≤
        countW sampleCfg.failureWindow 5 (recordW 5 1 sampleSt.failureEntries)) ∧
    ((handleFailure sampleCfg 0 5 sampleSt).cc.limit = max 1 (sampleSt.cc.limit / 2) ∧
    (handleFailure sampleCfg 0 5 sampleSt).dispatchInterval =
      min (sampleSt.dispatchInterval * 2) sampleCfg.maxDispatchInterval ∧
    (handleFailure sampleCfg 0 5 sampleSt).safeCeiling = sampleSt.cc.limit ∧
    (handleFailure sampleCfg 0 5 sampleSt).failureEntries = [] ∧
    countW sampleCfg.failureWindow 5 (handleFailure sampleCfg 0 5 sampleSt).failureEntries = 0 ∧
    (handleFailure sampleCfg 0 5 sampleSt).lifecycle = .cooling ∧
    (handleFailure sampleCfg 0 5 sampleSt).coolingStart = some 5) :=
  ⟨⟨fun p hp => by simp [sampleCfg] at hp,
    by norm_num [sampleCfg, sampleSt, initThrottleSt, countW, pruneW, recordW]⟩,
   failure_threshold_decelerates sampleCfg 0 5 sampleSt
     (fun p hp => by simp [sampleCfg] at hp)
     (by norm_num [sampleCfg, sampleSt, initThrottleSt, countW, pruneW, recordW])⟩

def c6Cfg : ThrottleCfg :=
  { sampleCfg with failurePredicate := some (fun e => decide (e = 0)) }

/-- Concrete check of `failure_predicate_filters`: the predicate admits only
exception code 0; code 1 leaves the state untouched. -/
theorem failure_predicate_filters_witness :
    (c6Cfg.failurePredicate = some (fun e => decide (e = 0)) ∧
      (fun e => decide (e = 0)) 1 = false) ∧
    handleFailure c6Cfg 1 5 sampleSt = sampleSt :=
  ⟨⟨rfl, rfl⟩,
   failure_predicate_filters c6Cfg 1 5 sampleSt (fun e => decide (e = 0)) rfl rfl⟩

def c10Cfg : ThrottleCfg :=
  { sampleCfg with tokenBudget := some (100, 60) }

/-- Concrete check of `tokens_charged_only_on_success`: 5 tokens reported on
the slot; a failing exit leaves the token window empty, a successful exit
charges it. -/
theorem tokens_charged_only_on_success_witness :
    (c10Cfg.tokenBudget.isSome = true ∧
      0 < (recordTokens 5 initSlot).tokensReported) ∧
    ((∀ exc : ℕ, (slotExit c10Cfg (some exc) (recordTokens 5 initSlot) 1 5
        sampleSt).tokenEntries = sampleSt.tokenEntries) ∧
      (slotExit c10Cfg none (recordTokens 5 initSlot) 1 5 sampleSt).tokenEntries =
        recordW 5 (((recordTokens 5 initSlot).tokensReported : ℚ))
          sampleSt.tokenEntries) :=
  ⟨⟨rfl, by decide⟩,
   tokens_charged_only_on_success c10Cfg (recordTokens 5 initSlot) 1 5 sampleSt
     rfl (by decide)⟩
